import Mathlib

/-!
Shallow embedding of the update-chain engine in `src/engine.rs`.

Conventions of the embedding:
* `Vec` becomes `List`, `HashSet<Tag>` becomes `List Tag` with an
  insert-if-absent operation (`Tag` is an empty enum in the source, so the
  set is always empty in any execution).
* Boxed closures (`Filter`, `Rule`, the `Action` generator) become plain
  Lean functions.
* A Rust panic (the `.unwrap()` in `resolve`, the `todo!()` arms of
  `process_action`) is modelled as `none` in an outer `Option` layer, so a
  function `&mut self -> R` becomes `Engine T → Option (R × Engine T)`.
* In-place mutation through `self.updates.last_mut()` is modelled by
  threading the current update value through the rule loop and writing it
  back at the position the borrow points to (the last slot).
-/

namespace PF2e

structure Meta where

structure State (T : Type) where
  meta : Meta
  base : T

abbrev Filter (T : Type) := State T → State T

inductive Tag : Type

instance : DecidableEq Tag := fun a => nomatch a

inductive Resolved where
  | Resolved
  | Partial
  | Unresolved
deriving DecidableEq

structure Update (T : Type) where
  filter : Filter T
  id : Nat
  tags : List Tag
  resolved : Resolved

inductive UserInput : Type

inductive InvalidAction where
  | BadPredicate

inductive ActionResponse (T : Type) where
  | Valid (updates : List (Update T))
  | Invalid (reason : InvalidAction)
  | RequestInput (req : UserInput)

structure Action (T : Type) where
  generator : State T → ActionResponse T

def Action.apply {T : Type} (a : Action T) (s : State T) : ActionResponse T :=
  a.generator s

inductive RuleResponse (T : Type) where
  | Skip
  | Divert (a : Action T)
  | Revert (a : Action T)
  | Inject (a : Action T)
  | Attach (t : Tag)

abbrev Rule (T : Type) := State T → Update T → RuleResponse T

structure Engine (T : Type) where
  action : Option (Action T)
  rules : List (Rule T)
  updates : List (Update T)
  update : Nat
  state : State T

/-- `HashSet::insert` on the tag set (order-irrelevant; kept as a list). -/
def insertTag (t : Tag) (tags : List Tag) : List Tag :=
  if t ∈ tags then tags else tags ++ [t]

/-- Outcome of the `for rule in self.rules.iter()` loop in `process_rule`:
either the loop ran to completion (`done`), or it short-circuited with one
of the three action-installing responses.  The carried `Update` is the
current update value, including any tags attached so far in the pass. -/
inductive RuleOutcome (T : Type) where
  | done (u : Update T)
  | divert (a : Action T) (u : Update T)
  | revert (a : Action T)
  | inject (a : Action T) (u : Update T)

/-- The rule loop of `Engine::process_rule` (engine.rs lines 114-145),
abstracted over the update the rules are invoked on. -/
def ruleLoop {T : Type} (st : State T) (u : Update T) :
    List (Rule T) → RuleOutcome T
  | [] => RuleOutcome.done u
  | r :: rs =>
    match r st u with
    | RuleResponse.Skip => ruleLoop st u rs
    | RuleResponse.Divert a => RuleOutcome.divert a u
    | RuleResponse.Revert a => RuleOutcome.revert a
    | RuleResponse.Inject a => RuleOutcome.inject a u
    | RuleResponse.Attach t => ruleLoop st { u with tags := insertTag t u.tags } rs

/-- Write-back of the `last_mut` borrow: replace the last element. -/
def setLast {α : Type} (l : List α) (x : α) : List α :=
  l.dropLast ++ [x]

/-- `Engine::resolve` (engine.rs lines 195-207).  `none` models the panic of
`self.updates.last().unwrap()` on an empty queue; otherwise the result fst
is the `Option<State<T>>` the Rust function returns and the snd the engine
after the call (`resolve` clears the queue exactly when it returns `Some`). -/
def resolveRun {T : Type} (e : Engine T) : Option (Option (State T) × Engine T) :=
  match e.updates.getLast? with
  | none => none
  | some u =>
    if u.resolved = Resolved.Unresolved then
      some (none, e)
    else
      some (some (e.updates.foldl (fun s upd => upd.filter s) e.state),
            { e with updates := [] })

/-- `Engine::process_update` (engine.rs lines 174-187).  `none` models a
panic propagated out of `resolve` (unreachable here, but kept faithful). -/
def processUpdate {T : Type} (e : Engine T) : Option (Bool × Engine T) :=
  match e.updates[e.update]? with
  | none => some (false, e)
  | some u =>
    if u.resolved = Resolved.Resolved then
      match resolveRun e with
      | none => none
      | some (some st, e1) => some (true, { e1 with state := st })
      | some (none, e1) => some (true, e1)
    else
      some (true, e)

/-- `Engine::process_rule` (engine.rs lines 111-152).  The update the rules
see is `self.updates.last_mut()`; tag mutations are written back to the last
slot before the queue is used again. -/
def processRule {T : Type} (e : Engine T) : Option (Bool × Engine T) :=
  match e.updates.getLast? with
  | none => some (false, e)
  | some u0 =>
    match ruleLoop e.state u0 e.rules with
    | RuleOutcome.divert a u =>
      some (true, { e with updates := (setLast e.updates u).take e.update,
                           action := some a })
    | RuleOutcome.revert a =>
      some (true, { e with updates := [], update := 0, action := some a })
    | RuleOutcome.inject a u =>
      some (true, { e with updates := setLast e.updates u, action := some a })
    | RuleOutcome.done u =>
      match processUpdate { e with updates := setLast e.updates u } with
      | none => none
      | some (_, e2) => some (true, { e2 with update := e2.update + 1 })

/-- `Engine::process_action` (engine.rs lines 154-172).  Every arm of the
match on the generator's response is `todo!()`, i.e. a panic (`none`). -/
def processAction {T : Type} (e : Engine T) : Option (Bool × Engine T) :=
  match e.action with
  | none => some (false, e)
  | some a =>
    match a.apply e.state with
    | ActionResponse.Valid _ => none
    | ActionResponse.Invalid _ => none
    | ActionResponse.RequestInput _ => none

/-- `Engine::step` (engine.rs lines 94-109).  `none` models a panic. -/
def stepRun {T : Type} (e : Engine T) : Option (Engine T) :=
  match processAction e with
  | none => none
  | some (true, e1) => some e1
  | some (false, e1) =>
    match processRule e1 with
    | none => none
    | some (_, e2) => some e2

/-- The rule pass as §4.2 of the spec words it: rules are invoked, in
registration order, against the update at index `idx` of the queue, and tag
mutations are written back at `idx`; the response handling is the one of the
code.  The spec claims `processRule` equals this at `idx = e.update` (the
cursor); the code instead agrees with it at the last index. -/
def rulePassAt {T : Type} (e : Engine T) (idx : Nat) : Option (Bool × Engine T) :=
  match e.updates[idx]? with
  | none => some (false, e)
  | some u0 =>
    match ruleLoop e.state u0 e.rules with
    | RuleOutcome.divert a u =>
      some (true, { e with updates := (e.updates.set idx u).take e.update,
                           action := some a })
    | RuleOutcome.revert a =>
      some (true, { e with updates := [], update := 0, action := some a })
    | RuleOutcome.inject a u =>
      some (true, { e with updates := e.updates.set idx u, action := some a })
    | RuleOutcome.done u =>
      match processUpdate { e with updates := e.updates.set idx u } with
      | none => none
      | some (_, e2) => some (true, { e2 with update := e2.update + 1 })

/-! ### Helper lemmas about the embedding -/

/-- `Tag` is an empty enum in the source, so `Attach` can never fire and a
`divert` outcome carries the update the loop started from, unchanged. -/
theorem ruleLoop_divert_eq {T : Type} {st : State T} {a : Action T}
    {u' : Update T} :
    ∀ {rs : List (Rule T)} {u : Update T},
      ruleLoop st u rs = RuleOutcome.divert a u' → u' = u := by
  intro rs
  induction rs with
  | nil =>
    intro u h
    exact absurd h (by simp [ruleLoop])
  | cons r rs ih =>
    intro u h
    rw [ruleLoop] at h
    cases hr : r st u with
    | Skip => rw [hr] at h; exact ih h
    | Divert b => rw [hr] at h; cases h; rfl
    | Revert b => rw [hr] at h; cases h
    | Inject b => rw [hr] at h; cases h
    | Attach t => exact nomatch t

/-- Writing the last element back over itself is the identity. -/
theorem setLast_getLast {α : Type} {l : List α} {u : α}
    (h : l.getLast? = some u) : setLast l u = l :=
  List.dropLast_append_getLast? u (Option.mem_def.mpr h)

/-- Write-back at the last slot, phrased with `List.set`. -/
theorem setLast_eq_set {α : Type} :
    ∀ (l : List α), l ≠ [] → ∀ x, setLast l x = l.set (l.length - 1) x
  | [], h, _ => absurd rfl h
  | [_], _, _ => rfl
  | a :: b :: t, _, x => by
    have ih := setLast_eq_set (b :: t) (by simp) x
    simp only [setLast, List.dropLast] at ih ⊢
    simp only [List.length_cons, Nat.add_sub_cancel] at ih ⊢
    simp [List.set, ih]

/-- The write-back list is never empty. -/
theorem setLast_ne_nil {α : Type} (l : List α) (x : α) : setLast l x ≠ [] := by
  simp [setLast]

/-- `process_update` always succeeds when the queue is non-empty, and it
never touches the cursor. -/
theorem processUpdate_some {T : Type} (e : Engine T) (hne : e.updates ≠ []) :
    ∃ b e2, processUpdate e = some (b, e2) ∧ e2.update = e.update := by
  cases hg : e.updates[e.update]? with
  | none =>
    refine ⟨false, e, ?_, rfl⟩
    simp only [processUpdate, hg]
  | some u =>
    by_cases hr : u.resolved = Resolved.Resolved
    · obtain ⟨r, e1, hres, hup⟩ :
          ∃ r e1, resolveRun e = some (r, e1) ∧ e1.update = e.update := by
        cases hL : e.updates.getLast? with
        | none => exact absurd (List.getLast?_eq_none_iff.mp hL) hne
        | some ul =>
          by_cases h2 : ul.resolved = Resolved.Unresolved
          · refine ⟨none, e, ?_, rfl⟩
            simp only [resolveRun, hL, if_pos h2]
          · refine ⟨some (e.updates.foldl (fun s upd => upd.filter s) e.state),
              { e with updates := [] }, ?_, rfl⟩
            simp only [resolveRun, hL, if_neg h2]
      cases r with
      | none =>
        refine ⟨true, e1, ?_, hup⟩
        simp only [processUpdate, hg, if_pos hr, hres]
      | some st =>
        refine ⟨true, { e1 with state := st }, ?_, hup⟩
        simp only [processUpdate, hg, if_pos hr, hres]
    · refine ⟨true, e, ?_, rfl⟩
      simp only [processUpdate, hg, if_neg hr]

/-! ### Concrete fixtures (payload `Nat`) -/

def s3 : State Nat := { meta := {}, base := 3 }

def addOne : State Nat → State Nat := fun s => { s with base := s.base + 1 }

def timesTwo : State Nat → State Nat := fun s => { s with base := s.base * 2 }

def mkUpd (f : State Nat → State Nat) (i : Nat) (r : Resolved) : Update Nat :=
  { filter := f, id := i, tags := [], resolved := r }

def actV : Action Nat := { generator := fun _ => ActionResponse.Valid [] }

def actI : Action Nat :=
  { generator := fun _ => ActionResponse.Invalid InvalidAction.BadPredicate }

/-! ### Claims -/

/-- C1: for every engine whose update queue is non-empty and whose last
update's status is not `Unresolved`, `resolve()` returns `Some state` where
`state` is obtained by starting from a clone of the current committed state
and folding every queued update's filter over it in queue order
(earliest-queued first), and the update queue is cleared afterwards. -/
theorem resolve_commits_in_queue_order {T : Type} (e : Engine T) (u : Update T)
    (hu : e.updates.getLast? = some u)
    (hr : u.resolved ≠ Resolved.Unresolved) :
    resolveRun e =
      some (some (e.updates.foldl (fun s upd => upd.filter s) e.state),
        { e with updates := [] }) := by
  simp only [resolveRun, hu, if_neg hr]

def exC1 : Engine Nat :=
  { action := none, rules := [],
    updates := [mkUpd addOne 0 Resolved.Partial, mkUpd timesTwo 1 Resolved.Resolved],
    update := 0, state := s3 }

/-- Witness for C1: two non-commuting filters, base 3; queue order gives
(3 + 1) * 2 = 8 (the reverse order would give 7), and the queue is cleared. -/
theorem resolve_commits_in_queue_order_witness :
    resolveRun exC1 =
      some (some { meta := {}, base := 8 }, { exC1 with updates := [] }) :=
  resolve_commits_in_queue_order exC1 (mkUpd timesTwo 1 Resolved.Resolved)
    rfl (by decide)

/-- C2: for every engine whose update queue is non-empty and whose last
queued update has status `Unresolved`, `resolve()` returns `None` and leaves
the queue, the cursor, and the committed state unchanged, regardless of the
statuses of interior updates. -/
theorem resolve_blocked_by_unresolved_last {T : Type} (e : Engine T)
    (u : Update T) (hu : e.updates.getLast? = some u)
    (hr : u.resolved = Resolved.Unresolved) :
    resolveRun e = some (none, e) := by
  simp only [resolveRun, hu, if_pos hr]

def exC2 : Engine Nat :=
  { action := none, rules := [],
    updates := [mkUpd addOne 0 Resolved.Resolved, mkUpd timesTwo 1 Resolved.Unresolved],
    update := 1, state := s3 }

/-- Witness for C2: interior update `Resolved`, last `Unresolved`; no commit
and the whole engine is returned unchanged. -/
theorem resolve_blocked_by_unresolved_last_witness :
    resolveRun exC2 = some (none, exC2) :=
  resolve_blocked_by_unresolved_last exC2 (mkUpd timesTwo 1 Resolved.Unresolved)
    rfl rfl

/-- C9 amended: calling `resolve()` on an empty queue panics (the
`.unwrap()` on `updates.last()`), modelled by the `none` panic sentinel;
there is no explicit error value. -/
theorem resolve_empty_queue_panics {T : Type} (e : Engine T)
    (h : e.updates = []) : resolveRun e = none := by
  simp [resolveRun, h]

def exC9 : Engine Nat :=
  { action := none, rules := [], updates := [], update := 0, state := s3 }

/-- C9 counterexample: on a concrete empty queue, `resolve` hits the
`.unwrap()` panic (the `none` sentinel) — there is no explicit error kind
such as `EmptyChain`, refuting the claim that the code surfaces one. -/
theorem resolve_empty_queue_cx : resolveRun exC9 = none := rfl

def exC9w : Engine Int :=
  { action := none, rules := [], updates := [], update := 3,
    state := { meta := {}, base := 0 } }

/-- Witness for amended C9 at a second concrete engine. -/
theorem resolve_empty_queue_panics_witness : resolveRun exC9w = none :=
  resolve_empty_queue_panics exC9w rfl

/-- C10: for every engine whose Action slot is populated, `step()` reaches a
`todo!()` arm and panics (the `none` sentinel), whatever the generator
returns; the action-draining path can never complete normally. -/
theorem step_with_pending_action_panics {T : Type} (e : Engine T)
    (a : Action T) (ha : e.action = some a) : stepRun e = none := by
  have hpa : processAction e = none := by
    simp only [processAction, ha]
    cases a.apply e.state <;> rfl
  simp only [stepRun, hpa]

def exC10 : Engine Nat :=
  { action := some actI, rules := [], updates := [mkUpd addOne 0 Resolved.Resolved],
    update := 0, state := s3 }

/-- Witness for C10: a pending action over a non-empty queue still panics. -/
theorem step_with_pending_action_panics_witness : stepRun exC10 = none :=
  step_with_pending_action_panics exC10 actI rfl

def exC4v : Engine Nat :=
  { action := some actV, rules := [], updates := [], update := 0, state := s3 }

def exC4i : Engine Nat :=
  { action := some actI, rules := [], updates := [], update := 0, state := s3 }

/-- C4 (code bug): the spec's action handling (Valid replaces the queue,
Invalid clears the slot, RequestInput keeps it) is not implemented — every
arm of `process_action`'s match is `todo!()`, so `step` panics for both
constructible generator responses (`RequestInput` carries the uninhabited
`UserInput`, so no generator can return it at all). -/
theorem process_action_todo_panics :
    stepRun exC4v = none ∧ stepRun exC4i = none := ⟨rfl, rfl⟩

def ruleIdOne : Rule Nat := fun _ u =>
  if u.id = 1 then RuleResponse.Inject actV else RuleResponse.Skip

def exC3 : Engine Nat :=
  { action := none, rules := [ruleIdOne],
    updates := [mkUpd addOne 0 Resolved.Unresolved, mkUpd timesTwo 1 Resolved.Unresolved],
    update := 0, state := s3 }

/-- C3 counterexample: two queued updates, cursor 0, one rule that injects
exactly on the update with id 1.  The code's rule pass feeds the rule the
LAST update (id 1), so an action gets installed; the claimed pass over the
update at the cursor (id 0) would install none.  The observable outcomes
differ. -/
theorem rule_pass_at_cursor_cx : processRule exC3 ≠ rulePassAt exC3 exC3.update := by
  intro h
  have hL : (processRule exC3).map (fun p => p.2.action.isSome) = some true := rfl
  have hR : (rulePassAt exC3 exC3.update).map (fun p => p.2.action.isSome) =
      some false := rfl
  rw [h, hR] at hL
  exact Bool.noConfusion (Option.some.inj hL)

/-- C3 amended: during the rule pass the engine invokes every registered
rule, in registration order, against the LAST queued update (writing tag
mutations back to the last slot) — not against the update at the cursor. -/
theorem rule_pass_uses_last_update {T : Type} (e : Engine T)
    (h : e.updates ≠ []) :
    processRule e = rulePassAt e (e.updates.length - 1) := by
  have hg : e.updates.getLast? = e.updates[e.updates.length - 1]? :=
    List.getLast?_eq_getElem? e.updates
  have hset : ∀ x, setLast e.updates x = e.updates.set (e.updates.length - 1) x :=
    setLast_eq_set e.updates h
  cases hL : e.updates.getLast? with
  | none => exact absurd (List.getLast?_eq_none_iff.mp hL) h
  | some u0 =>
    have hg2 : e.updates[e.updates.length - 1]? = some u0 := by rw [← hg, hL]
    cases hro : ruleLoop e.state u0 e.rules with
    | done u => simp only [processRule, rulePassAt, hL, hg2, hro, hset]
    | divert a u => simp only [processRule, rulePassAt, hL, hg2, hro, hset]
    | revert a => simp only [processRule, rulePassAt, hL, hg2, hro]
    | inject a u => simp only [processRule, rulePassAt, hL, hg2, hro, hset]

def exC3w : Engine Nat :=
  { action := none, rules := [ruleIdOne],
    updates := [mkUpd addOne 0 Resolved.Unresolved, mkUpd timesTwo 1 Resolved.Unresolved],
    update := 1, state := s3 }

/-- Witness for amended C3. -/
theorem rule_pass_uses_last_update_witness :
    processRule exC3w = rulePassAt exC3w (exC3w.updates.length - 1) :=
  rule_pass_uses_last_update exC3w (by simp [exC3w])

/-- C5: in a step with no pending action and a non-empty queue whose rule
pass completes without Divert/Revert/Inject, the cursor advances by exactly
one whether or not the update committed; in particular, with no rules and a
single `Unresolved` queued update, one `step()` moves the cursor to 1 while
the committed state and the queue are untouched. -/
theorem cursor_advances_unconditionally {T : Type} (e : Engine T)
    (u : Update T) (ha : e.action = none)
    (hu : e.updates.getLast? = some u) :
    (∀ u', ruleLoop e.state u e.rules = RuleOutcome.done u' →
      (stepRun e).map Engine.update = some (e.update + 1)) ∧
    (e.rules = [] → e.updates = [u] → e.update = 0 →
      u.resolved = Resolved.Unresolved →
      stepRun e = some { e with update := 1 }) := by
  have hact : processAction e = some (false, e) := by
    simp only [processAction, ha]
  constructor
  · intro u' hdone
    obtain ⟨b, e2, hpu, hcur⟩ :=
      processUpdate_some { e with updates := setLast e.updates u' }
        (setLast_ne_nil e.updates u')
    have hrule : processRule e = some (true, { e2 with update := e2.update + 1 }) := by
      simp only [processRule, hu, hdone, hpu]
    simp only [stepRun, hact, hrule, Option.map_some]
    simp [hcur]
  · intro hrules hupd hcur hres
    have hloop : ruleLoop e.state u e.rules = RuleOutcome.done u := by
      rw [hrules]; rfl
    have heq : { e with updates := setLast e.updates u } = e := by
      rw [setLast_getLast hu]
    have hnr : ¬ u.resolved = Resolved.Resolved := by
      rw [hres]; exact fun hx => Resolved.noConfusion hx
    have hg : e.updates[e.update]? = some u := by rw [hupd, hcur]; rfl
    have hpu : processUpdate e = some (true, e) := by
      simp only [processUpdate, hg, if_neg hnr]
    have hrule : processRule e = some (true, { e with update := e.update + 1 }) := by
      simp only [processRule, hu, hloop, heq, hpu]
    simp only [stepRun, hact, hrule, hcur]

def uUnres : Update Nat := mkUpd addOne 0 Resolved.Unresolved

def exC5 : Engine Nat :=
  { action := none, rules := [], updates := [uUnres], update := 0, state := s3 }

/-- Witness for C5: both the general cursor fact and the concrete
`Unresolved` scenario at a lone queued update. -/
theorem cursor_advances_unconditionally_witness :
    (stepRun exC5).map Engine.update = some 1 ∧
    stepRun exC5 = some { exC5 with update := 1 } := by
  have h := cursor_advances_unconditionally exC5 uUnres rfl rfl
  exact ⟨h.1 uUnres rfl, h.2 rfl rfl rfl rfl⟩

def exC6 : Engine Nat :=
  { action := none, rules := [], updates := [mkUpd addOne 0 Resolved.Partial],
    update := 0, state := s3 }

/-- C6 counterexample: a lone `Partial` update (filter +1) at the cursor;
the claim says the step commits just as for `Resolved` (state.base would
become 4), but the code's step leaves state.base = 3. -/
theorem step_partial_no_commit_cx :
    (stepRun exC6).map (fun e2 => e2.state.base) ≠ some 4 := by
  have h : (stepRun exC6).map (fun e2 => e2.state.base) = some 3 := rfl
  rw [h]
  simp

/-- C6 amended: `resolve()` does commit a chain whose last update is
`Partial` (returning the folded state and clearing the queue), but the
step pipeline's commit attempt fires only when the update at the cursor has
status exactly `Resolved`; for any other status `process_update` leaves the
engine untouched, so a `Partial` chain is never committed by `step()`. -/
theorem partial_resolves_but_step_commits_only_resolved {T : Type}
    (e : Engine T) (u : Update T) (hu : e.updates.getLast? = some u)
    (hp : u.resolved = Resolved.Partial) :
    resolveRun e =
      some (some (e.updates.foldl (fun s upd => upd.filter s) e.state),
        { e with updates := [] }) ∧
    (∀ v, e.updates[e.update]? = some v → v.resolved ≠ Resolved.Resolved →
      processUpdate e = some (true, e)) := by
  constructor
  · have hnr : ¬ u.resolved = Resolved.Unresolved := by
      rw [hp]; exact fun hx => Resolved.noConfusion hx
    simp only [resolveRun, hu, if_neg hnr]
  · intro v hv hrv
    simp only [processUpdate, hv, if_neg hrv]

def exC6w : Engine Nat :=
  { action := none, rules := [], updates := [mkUpd timesTwo 0 Resolved.Partial],
    update := 0, state := s3 }

/-- Witness for amended C6: `resolve` commits the `Partial` chain (3 * 2 = 6)
while `process_update` refuses to. -/
theorem partial_resolves_but_step_commits_only_resolved_witness :
    resolveRun exC6w =
      some (some { meta := {}, base := 6 }, { exC6w with updates := [] }) ∧
    processUpdate exC6w = some (true, exC6w) := by
  have h := partial_resolves_but_step_commits_only_resolved exC6w
    (mkUpd timesTwo 0 Resolved.Partial) rfl rfl
  exact ⟨h.1, h.2 (mkUpd timesTwo 0 Resolved.Partial) rfl (by decide)⟩

def ruleDiv : Rule Nat := fun _ _ => RuleResponse.Divert actV

def exC7 : Engine Nat :=
  { action := none, rules := [ruleDiv],
    updates := [mkUpd addOne 0 Resolved.Unresolved], update := 2, state := s3 }

/-- C7 counterexample: a `Divert` at cursor 2 over a queue of length 1 (such
engines are reachable, because the cursor advances past uncommitted
updates) yields a queue of length 1, not of length exactly 2 as claimed. -/
theorem divert_truncate_length_cx :
    (stepRun exC7).map (fun e2 => e2.updates.length) ≠ some 2 := by
  have h : (stepRun exC7).map (fun e2 => e2.updates.length) = some 1 := rfl
  rw [h]
  simp

/-- C7 amended: when a rule answers `Divert(a)` during the rule pass at
cursor `c`, the step ends with the queue truncated to its first `c`
elements — length `min c N`, which is exactly `c` whenever `c ≤ N` — the
action slot set to `a`, the remaining rules unevaluated (the loop
short-circuits), and the committed state unchanged. -/
theorem divert_truncates_to_cursor {T : Type} (e : Engine T)
    (u u' : Update T) (a : Action T) (ha : e.action = none)
    (hu : e.updates.getLast? = some u)
    (hd : ruleLoop e.state u e.rules = RuleOutcome.divert a u') :
    stepRun e =
      some { e with updates := e.updates.take e.update, action := some a } := by
  have huu : u' = u := ruleLoop_divert_eq hd
  subst huu
  have hsl : setLast e.updates u' = e.updates := setLast_getLast hu
  have hact : processAction e = some (false, e) := by
    simp only [processAction, ha]
  have hrule : processRule e =
      some (true, { e with updates := e.updates.take e.update, action := some a }) := by
    simp only [processRule, hu, hd, hsl]
  simp only [stepRun, hact, hrule]

def exC7w : Engine Nat :=
  { action := none, rules := [ruleDiv],
    updates := [mkUpd addOne 0 Resolved.Resolved, mkUpd timesTwo 1 Resolved.Unresolved],
    update := 1, state := s3 }

/-- Witness for amended C7: cursor 1 over a queue of length 2; the queue is
truncated to the first element, the diverting action installed, state kept. -/
theorem divert_truncates_to_cursor_witness :
    stepRun exC7w =
      some { exC7w with updates := [mkUpd addOne 0 Resolved.Resolved],
                        action := some actV } :=
  divert_truncates_to_cursor exC7w (mkUpd timesTwo 1 Resolved.Unresolved)
    (mkUpd timesTwo 1 Resolved.Unresolved) actV rfl rfl rfl

/-- C8: when a rule answers `Revert(a)` during a rule pass, the step ends
with an empty queue, cursor 0, and the action slot set to `a`, regardless
of the prior queue length or cursor position; remaining rules are not
evaluated (the loop short-circuits). -/
theorem revert_clears_queue_resets_cursor {T : Type} (e : Engine T)
    (u : Update T) (a : Action T) (ha : e.action = none)
    (hu : e.updates.getLast? = some u)
    (hr : ruleLoop e.state u e.rules = RuleOutcome.revert a) :
    stepRun e = some { e with updates := [], update := 0, action := some a } := by
  have hact : processAction e = some (false, e) := by
    simp only [processAction, ha]
  have hrule : processRule e =
      some (true, { e with updates := [], update := 0, action := some a }) := by
    simp only [processRule, hu, hr]
  simp only [stepRun, hact, hrule]

def ruleRev : Rule Nat := fun _ _ => RuleResponse.Revert actI

def exC8 : Engine Nat :=
  { action := none, rules := [ruleRev],
    updates := [mkUpd addOne 0 Resolved.Resolved, mkUpd timesTwo 1 Resolved.Unresolved],
    update := 5, state := s3 }

/-- Witness for C8: queue of length 2 and an out-of-range cursor 5 are both
wiped: queue empties, cursor resets to 0, action installed. -/
theorem revert_clears_queue_resets_cursor_witness :
    stepRun exC8 = some { exC8 with updates := [], update := 0, action := some actI } :=
  revert_clears_queue_resets_cursor exC8 (mkUpd timesTwo 1 Resolved.Unresolved)
    actI rfl rfl rfl

end PF2e
